import Mathlib

/-!
Shallow embedding of the `docai` Storage Service
(`src/docai/storage/service.py`, exceptions in
`src/docai/storage/exceptions.py`, configuration in
`src/docai/storage/config.py`).

Strings of the Python source are modelled as `List Char`, byte contents as
`List Nat`.  The filesystem subtree owned by the service is modelled as two
directories (the `pdfs` and `images` subdirectories of the base path), each
an association list from file name to file content, in directory-listing
order.  Fallible I/O primitives (`aiofiles.open(...).write`,
`aiofiles.os.remove`) are modelled through an oracle that says, per file
name, whether the operation succeeds; the typed exceptions of
`exceptions.py` become an inductive error type.  The striped-lock
concurrency of `save_pdf` is modelled separately as a small-step
interleaving semantics of two writer tasks sharing one stripe lock.
-/

namespace DocAI

/-- A Python string, modelled as its list of characters. -/
abbrev Str := List Char

/-- Raw byte content (`bytes` in the source), modelled as a list of byte values. -/
abbrev Bytes := List Nat

/-! ## Path resolver

`StorageService.__init__` sets `base_path` (default `Path("./data")`,
which `pathlib` normalises to the relative path `data`),
`pdf_dir = base_path / "pdfs"` and `image_dir = base_path / "images"`.
A `pathlib` path is modelled by whether it is absolute plus its component
list; `p / q` appends a component. -/

/-- A `pathlib.Path`: absolute-flag plus components. -/
structure PathV where
  abs : Bool
  comps : List Str
  deriving DecidableEq, Repr

/-- `Path.is_absolute()`. -/
def PathV.is_absolute (p : PathV) : Bool := p.abs

/-- `p / name`: append one component. -/
def PathV.child (p : PathV) (name : Str) : PathV :=
  { p with comps := p.comps ++ [name] }

/-- The default base path `Path("./data")`, which `pathlib` stores as the
relative path with single component `data`. -/
def defaultBasePath : PathV := ⟨false, ["data".toList]⟩

/-- Name of the PDF subdirectory. -/
def pdfsDirName : Str := "pdfs".toList

/-- Name of the image subdirectory. -/
def imagesDirName : Str := "images".toList

/-- The f-string `f"{doc_id}.pdf"` of `save_pdf` / `get_pdf_path` /
`delete_document`. -/
def pdf_filename (doc_id : Str) : Str := doc_id ++ ".pdf".toList

/-- The f-string `f"{doc_id}_p{page_number}.jpg"` of `save_image` /
`get_image_path`. -/
def image_filename (doc_id : Str) (page_number : Nat) : Str :=
  doc_id ++ "_p".toList ++ Nat.toDigits 10 page_number ++ ".jpg".toList

/-! ## Storage service configuration

`StorageService` keeps `base_path` and the striped lock pool of
`LOCK_STRIPES` (default 1024, `config.py`) locks.  Python's builtin
`hash` on strings is implementation-defined, so it is carried as a
parameter of the model. -/

/-- The default of `StorageSettings.lock_stripes` (`config.py`). -/
def LOCK_STRIPES : Nat := 1024

/-- Static data of a `StorageService` instance: the base path, the number
of lock stripes, and the (opaque) string hash used by `_get_lock`. -/
structure StorageService where
  base_path : PathV
  num_stripes : Nat
  hashFn : Str → Nat

/-- `self.pdf_dir = self.base_path / "pdfs"`. -/
def StorageService.pdf_dir (svc : StorageService) : PathV :=
  svc.base_path.child pdfsDirName

/-- `self.image_dir = self.base_path / "images"`. -/
def StorageService.image_dir (svc : StorageService) : PathV :=
  svc.base_path.child imagesDirName

/-- `_get_lock`: `idx = hash(doc_id) % self._num_stripes`.  The returned
lock object is identified with its index into the fixed list
`self._locks`. -/
def StorageService.get_lock_idx (svc : StorageService) (doc_id : Str) : Nat :=
  svc.hashFn doc_id % svc.num_stripes

/-! ## Filesystem and lock state -/

/-- One directory: file names mapped to contents, in listing order. -/
abbrev Dir := List (Str × Bytes)

/-- The filesystem subtree owned by the service. -/
structure FS where
  pdfs : Dir
  images : Dir
  deriving DecidableEq, Repr

/-- Look up a file's content by name. -/
def dirGet (d : Dir) (name : Str) : Option Bytes := List.lookup name d

/-- Remove every entry with the given name. -/
def dirRemove (d : Dir) (name : Str) : Dir :=
  d.filter (fun e => !(e.1 == name))

/-- Create-or-truncate write (`open(path, "wb")` + `write`): the new entry
replaces any previous file of that name. -/
def dirWrite (d : Dir) (name : Str) (content : Bytes) : Dir :=
  (name, content) :: dirRemove d name

/-- Whole service state: the filesystem plus which lock stripes are held. -/
structure SState where
  fs : FS
  locks : Nat → Bool

/-- Set one stripe of the lock pool. -/
def setLock (locks : Nat → Bool) (idx : Nat) (b : Bool) : Nat → Bool :=
  fun j => if j = idx then b else locks j

/-! ## Error taxonomy (`exceptions.py`)

Each constructor corresponds to one exception class; the `cause` argument
of the failure constructors records the file name whose I/O operation
raised the wrapped underlying error (`raise ... from e`). -/

/-- The storage error taxonomy. -/
inductive StorageErr where
  | savePdfFailed (doc_id : Str) (cause : Str)
  | saveImageFailed (doc_id : Str) (page_number : Nat) (cause : Str)
  | pdfNotFound (doc_id : Str)
  | imageNotFound (doc_id : Str) (page_number : Nat)
  | deleteDocumentFailed (doc_id : Str) (cause : Str)
  deriving DecidableEq, Repr

deriving instance DecidableEq for Except

/-- I/O oracle: which writes and removals succeed, per file name.  A
`false` entry models an underlying `OSError` (permission denied, disk
full, ...). -/
structure IOOracle where
  writeOk : Str → Bool
  removeOk : Str → Bool

/-- The oracle under which every I/O primitive succeeds. -/
def allOk : IOOracle := ⟨fun _ => true, fun _ => true⟩

/-! ## Storage operations (`service.py`)

Each operation is a function from service state to result-paired state.
`async with lock:` is modelled by setting the stripe's flag on entry and
clearing it on every exit path, successful or failing, mirroring the
scoped acquisition of the source. -/

/-- `StorageService.save_pdf`: under the stripe lock, create-or-truncate
`{pdf_dir}/{doc_id}.pdf` with `pdf_content` and return the written path;
an I/O failure is wrapped into `SavePDFError` and the lock is released. -/
def save_pdf (ora : IOOracle) (svc : StorageService) (doc_id : Str)
    (pdf_content : Bytes) (st : SState) : Except StorageErr PathV × SState :=
  let name := pdf_filename doc_id
  let file_path := svc.pdf_dir.child name
  let idx := svc.get_lock_idx doc_id
  let held := { st with locks := setLock st.locks idx true }
  if ora.writeOk name then
    (.ok file_path,
      { fs := { held.fs with pdfs := dirWrite held.fs.pdfs name pdf_content },
        locks := setLock held.locks idx false })
  else
    (.error (.savePdfFailed doc_id name),
      { held with locks := setLock held.locks idx false })

/-- `StorageService.save_image`: same shape as `save_pdf`, keyed by
`(doc_id, page_number)`, failing with `SaveImageError`. -/
def save_image (ora : IOOracle) (svc : StorageService) (doc_id : Str)
    (page_number : Nat) (image_content : Bytes) (st : SState) :
    Except StorageErr PathV × SState :=
  let name := image_filename doc_id page_number
  let file_path := svc.image_dir.child name
  let idx := svc.get_lock_idx doc_id
  let held := { st with locks := setLock st.locks idx true }
  if ora.writeOk name then
    (.ok file_path,
      { fs := { held.fs with images := dirWrite held.fs.images name image_content },
        locks := setLock held.locks idx false })
  else
    (.error (.saveImageFailed doc_id page_number name),
      { held with locks := setLock held.locks idx false })

/-- `StorageService.get_pdf_path`: existence check (no lock), returning
the path if `{pdf_dir}/{doc_id}.pdf` exists and `PDFNotFoundError`
otherwise. -/
def get_pdf_path (svc : StorageService) (doc_id : Str) (fs : FS) :
    Except StorageErr PathV :=
  let name := pdf_filename doc_id
  if (dirGet fs.pdfs name).isSome then
    .ok (svc.pdf_dir.child name)
  else
    .error (.pdfNotFound doc_id)

/-- `StorageService.get_image_path`: existence check (no lock), returning
the path if `{image_dir}/{doc_id}_p{page_number}.jpg` exists and
`ImageNotFoundError` otherwise. -/
def get_image_path (svc : StorageService) (doc_id : Str) (page_number : Nat)
    (fs : FS) : Except StorageErr PathV :=
  let name := image_filename doc_id page_number
  if (dirGet fs.images name).isSome then
    .ok (svc.image_dir.child name)
  else
    .error (.imageNotFound doc_id page_number)

/-- The filter of `delete_document`'s image scan:
`name.startswith(f"{doc_id}_p") and name.endswith(".jpg")`. -/
def image_matches (doc_id : Str) (name : Str) : Bool :=
  List.isPrefixOf (doc_id ++ "_p".toList) name
    && List.isSuffixOf ".jpg".toList name

/-- The image-deletion loop of `delete_document`: walk the directory
listing in order; remove each matching entry, stopping at the first
removal the oracle fails (returning its name) with the untouched tail
preserved.  Returns the possible failing name and the directory after the
removals that happened. -/
def delete_images_loop (ora : IOOracle) (doc_id : Str) :
    Dir → Option Str × Dir
  | [] => (none, [])
  | (nm, c) :: rest =>
    if image_matches doc_id nm then
      if ora.removeOk nm then
        delete_images_loop ora doc_id rest
      else
        (some nm, (nm, c) :: rest)
    else
      let r := delete_images_loop ora doc_id rest
      (r.1, (nm, c) :: r.2)

/-- `StorageService.delete_document`: under the stripe lock, remove the
PDF if it exists (skipping silently if absent), then scan the image
directory removing every file whose name matches
`{doc_id}_p*...*.jpg`; the first failing removal raises
`DeleteDocumentError` wrapping it, with earlier removals left in place. -/
def delete_document (ora : IOOracle) (svc : StorageService) (doc_id : Str)
    (st : SState) : Except StorageErr Unit × SState :=
  let idx := svc.get_lock_idx doc_id
  let held := { st with locks := setLock st.locks idx true }
  let name := pdf_filename doc_id
  let pdfStep : Except StorageErr Dir :=
    if (dirGet held.fs.pdfs name).isSome then
      if ora.removeOk name then .ok (dirRemove held.fs.pdfs name)
      else .error (.deleteDocumentFailed doc_id name)
    else .ok held.fs.pdfs
  match pdfStep with
  | .error e =>
    (.error e, { held with locks := setLock held.locks idx false })
  | .ok pdfs' =>
    let r := delete_images_loop ora doc_id held.fs.images
    match r.1 with
    | some nm =>
      (.error (.deleteDocumentFailed doc_id nm),
        { fs := { pdfs := pdfs', images := r.2 },
          locks := setLock held.locks idx false })
    | none =>
      (.ok (),
        { fs := { pdfs := pdfs', images := r.2 },
          locks := setLock held.locks idx false })

/-! ## Reading a returned path

The round-trip property talks about reading the file at the path a save
returned.  `read_path` resolves a path against the service's directory
layout and looks the file up in the filesystem state. -/

/-- Strip a component prefix from a component list. -/
def stripComps : List Str → List Str → Option (List Str)
  | [], ys => some ys
  | _ :: _, [] => none
  | x :: xs, y :: ys => if x = y then stripComps xs ys else none

/-- Read the content of the file at `p`, resolved against the service's
base path and its two subdirectories. -/
def read_path (svc : StorageService) (fs : FS) (p : PathV) : Option Bytes :=
  if p.abs ≠ svc.base_path.abs then none
  else
    match stripComps svc.base_path.comps p.comps with
    | some [d, n] =>
      if d = pdfsDirName then dirGet fs.pdfs n
      else if d = imagesDirName then dirGet fs.images n
      else none
    | _ => none

/-! ## Interleaving model of two concurrent `save_pdf` calls

Both calls target the same `doc_id`, hence (by `get_lock_idx` determinism)
the same stripe lock, and the same file.  Each task's critical section is
`async with lock:` → `open(path, "wb")` (truncate) → write → return
(releasing the lock).  To capture that the underlying file write need not
be atomic, a task's content is given as an arbitrary list of chunks, each
chunk written in its own step; the task's whole byte content is the
flattening of its chunks.  A scheduler interleaves the two tasks; an
`acquire` step is enabled only when the lock is free. -/

/-- Program counter of one writer task. -/
inductive Phase where
  | notStarted
  | acquired
  | writing (written remaining : List Bytes)
  | done
  deriving DecidableEq, Repr

/-- Shared state of the two-writer interleaving machine: the stripe lock
(`some i` = held by task `i`), the target file's bytes, and each task's
phase. -/
structure CState where
  lock : Option Bool
  file : Bytes
  ph0 : Phase
  ph1 : Phase
  deriving DecidableEq, Repr

/-- Phase of task `i`. -/
def CState.ph (s : CState) : Bool → Phase
  | false => s.ph0
  | true => s.ph1

/-- Update the phase of task `i`. -/
def CState.setPh (s : CState) : Bool → Phase → CState
  | false, p => { s with ph0 := p }
  | true, p => { s with ph1 := p }

/-- One step of task `i`, whose chunked content is `content i`; `none`
when the task is blocked on the lock or finished. -/
def stepTask (content : Bool → List Bytes) (i : Bool) (s : CState) :
    Option CState :=
  match s.ph i with
  | .notStarted =>
    match s.lock with
    | none => some (({ s with lock := some i }).setPh i .acquired)
    | some _ => none
  | .acquired =>
    some (({ s with file := [] }).setPh i (.writing [] (content i)))
  | .writing written rem =>
    match rem with
    | [] => some (({ s with lock := none }).setPh i .done)
    | b :: rest =>
      some (({ s with file := s.file ++ b }).setPh i
        (.writing (written ++ [b]) rest))
  | .done => none

/-- Run a schedule (a list of task choices); `none` if any chosen step is
disabled. -/
def runSched (content : Bool → List Bytes) : List Bool → CState → Option CState
  | [], s => some s
  | i :: sched, s =>
    match stepTask content i s with
    | some s' => runSched content sched s'
    | none => none

/-- Initial machine state: lock free, both tasks not started, the file
holding arbitrary previous bytes `f0`. -/
def initC (f0 : Bytes) : CState := ⟨none, f0, .notStarted, .notStarted⟩

/-- Mutual-exclusion invariant of the two-writer machine: when the lock is
held, the holder is mid-critical-section with the file holding exactly the
chunks written so far, and the other task is outside its critical section;
when free, both tasks are outside, and if either has finished the file
holds one task's complete content. -/
def SaveInv (content : Bool → List Bytes) (s : CState) : Prop :=
  match s.lock with
  | some i =>
    (s.ph (!i) = .notStarted ∨ s.ph (!i) = .done) ∧
    (s.ph i = .acquired ∨ ∃ written rem, s.ph i = .writing written rem ∧
      content i = written ++ rem ∧ s.file = written.flatten)
  | none =>
    (∀ j, s.ph j = .notStarted ∨ s.ph j = .done) ∧
    ((s.ph false = .done ∨ s.ph true = .done) →
      s.file = (content false).flatten ∨ s.file = (content true).flatten)

/-- One step of either task preserves the mutual-exclusion invariant. -/
theorem saveInv_step (content : Bool → List Bytes) (i : Bool) (s s' : CState)
    (h : stepTask content i s = some s') (hinv : SaveInv content s) :
    SaveInv content s' := by
  obtain ⟨lk, fl, p0, p1⟩ := s
  cases i with
  | false =>
    cases hp : p0 with
    | notStarted =>
      subst hp
      cases lk with
      | some j => simp [stepTask, CState.ph] at h
      | none =>
        simp only [stepTask, CState.ph, CState.setPh, Option.some_inj] at h
        subst h
        have h1 := hinv.1 true
        simp only [CState.ph] at h1
        simp only [SaveInv, CState.ph, Bool.not_false]
        exact ⟨h1, Or.inl trivial⟩
    | acquired =>
      subst hp
      simp only [stepTask, CState.ph, CState.setPh, Option.some_inj] at h
      subst h
      cases lk with
      | none =>
        have h1 := hinv.1 false
        simp [CState.ph] at h1
      | some j =>
        cases j with
        | true =>
          have h1 := hinv.1
          simp [CState.ph] at h1
        | false =>
          have h1 := hinv.1
          simp only [CState.ph, Bool.not_false] at h1
          simp only [SaveInv, CState.ph, Bool.not_false]
          refine ⟨h1, Or.inr ⟨[], content false, rfl, by simp, by simp⟩⟩
    | writing written rem =>
      subst hp
      cases rem with
      | nil =>
        simp only [stepTask, CState.ph, CState.setPh, Option.some_inj] at h
        subst h
        cases lk with
        | none =>
          have h1 := hinv.1 false
          simp [CState.ph] at h1
        | some j =>
          cases j with
          | true =>
            have h1 := hinv.1
            simp [CState.ph] at h1
          | false =>
            obtain ⟨hother, hself⟩ := hinv
            simp only [CState.ph, Bool.not_false] at hother hself
            rcases hself with habs | ⟨w, r, heq, hc, hf⟩
            · exact absurd habs (by simp)
            · obtain ⟨hw, hr⟩ := Phase.writing.inj heq
              subst hw; subst hr
              simp only [SaveInv, CState.ph]
              constructor
              · intro j; cases j
                · exact Or.inr rfl
                · exact hother
              · intro _
                left
                simp only [List.append_nil] at hc
                rw [hf, hc]
      | cons b rest =>
        simp only [stepTask, CState.ph, CState.setPh, Option.some_inj] at h
        subst h
        cases lk with
        | none =>
          have h1 := hinv.1 false
          simp [CState.ph] at h1
        | some j =>
          cases j with
          | true =>
            have h1 := hinv.1
            simp [CState.ph] at h1
          | false =>
            obtain ⟨hother, hself⟩ := hinv
            simp only [CState.ph, Bool.not_false] at hother hself
            rcases hself with habs | ⟨w, r, heq, hc, hf⟩
            · exact absurd habs (by simp)
            · obtain ⟨hw, hr⟩ := Phase.writing.inj heq
              subst hw; subst hr
              simp only [SaveInv, CState.ph, Bool.not_false]
              refine ⟨hother, Or.inr ⟨written ++ [b], rest, rfl, ?_, ?_⟩⟩
              · rw [hc]; simp
              · rw [hf]; simp
    | done =>
      subst hp
      simp [stepTask, CState.ph] at h
  | true =>
    cases hp : p1 with
    | notStarted =>
      subst hp
      cases lk with
      | some j => simp [stepTask, CState.ph] at h
      | none =>
        simp only [stepTask, CState.ph, CState.setPh, Option.some_inj] at h
        subst h
        have h1 := hinv.1 false
        simp only [CState.ph] at h1
        simp only [SaveInv, CState.ph, Bool.not_true]
        exact ⟨h1, Or.inl trivial⟩
    | acquired =>
      subst hp
      simp only [stepTask, CState.ph, CState.setPh, Option.some_inj] at h
      subst h
      cases lk with
      | none =>
        have h1 := hinv.1 true
        simp [CState.ph] at h1
      | some j =>
        cases j with
        | false =>
          have h1 := hinv.1
          simp [CState.ph] at h1
        | true =>
          have h1 := hinv.1
          simp only [CState.ph, Bool.not_true] at h1
          simp only [SaveInv, CState.ph, Bool.not_true]
          refine ⟨h1, Or.inr ⟨[], content true, rfl, by simp, by simp⟩⟩
    | writing written rem =>
      subst hp
      cases rem with
      | nil =>
        simp only [stepTask, CState.ph, CState.setPh, Option.some_inj] at h
        subst h
        cases lk with
        | none =>
          have h1 := hinv.1 true
          simp [CState.ph] at h1
        | some j =>
          cases j with
          | false =>
            have h1 := hinv.1
            simp [CState.ph] at h1
          | true =>
            obtain ⟨hother, hself⟩ := hinv
            simp only [CState.ph, Bool.not_true] at hother hself
            rcases hself with habs | ⟨w, r, heq, hc, hf⟩
            · exact absurd habs (by simp)
            · obtain ⟨hw, hr⟩ := Phase.writing.inj heq
              subst hw; subst hr
              simp only [SaveInv, CState.ph]
              constructor
              · intro j; cases j
                · exact hother
                · exact Or.inr rfl
              · intro _
                right
                simp only [List.append_nil] at hc
                rw [hf, hc]
      | cons b rest =>
        simp only [stepTask, CState.ph, CState.setPh, Option.some_inj] at h
        subst h
        cases lk with
        | none =>
          have h1 := hinv.1 true
          simp [CState.ph] at h1
        | some j =>
          cases j with
          | false =>
            have h1 := hinv.1
            simp [CState.ph] at h1
          | true =>
            obtain ⟨hother, hself⟩ := hinv
            simp only [CState.ph, Bool.not_true] at hother hself
            rcases hself with habs | ⟨w, r, heq, hc, hf⟩
            · exact absurd habs (by simp)
            · obtain ⟨hw, hr⟩ := Phase.writing.inj heq
              subst hw; subst hr
              simp only [SaveInv, CState.ph, Bool.not_true]
              refine ⟨hother, Or.inr ⟨written ++ [b], rest, rfl, ?_, ?_⟩⟩
              · rw [hc]; simp
              · rw [hf]; simp
    | done =>
      subst hp
      simp [stepTask, CState.ph] at h

/-- Running any schedule preserves the invariant. -/
theorem saveInv_runSched (content : Bool → List Bytes) (sched : List Bool) :
    ∀ s s' : CState, runSched content sched s = some s' →
      SaveInv content s → SaveInv content s' := by
  induction sched with
  | nil =>
    intro s s' h hinv
    simp only [runSched, Option.some_inj] at h
    exact h ▸ hinv
  | cons i sched ih =>
    intro s s' h hinv
    simp only [runSched] at h
    cases hstep : stepTask content i s with
    | none => rw [hstep] at h; exact absurd h (by simp)
    | some s1 =>
      rw [hstep] at h
      exact ih s1 s' h (saveInv_step content i s s1 hstep hinv)

/-- The initial state satisfies the invariant. -/
theorem saveInv_init (content : Bool → List Bytes) (f0 : Bytes) :
    SaveInv content (initC f0) := by
  simp only [SaveInv, initC, CState.ph]
  constructor
  · intro j; cases j <;> exact Or.inl rfl
  · intro hdone
    rcases hdone with h | h <;> simp [CState.ph] at h

/-! ## Directory and loop lemmas -/

/-- A fresh write is what a lookup at its name finds. -/
theorem dirGet_dirWrite_same (d : Dir) (nm : Str) (c : Bytes) :
    dirGet (dirWrite d nm c) nm = some c := by
  simp [dirGet, dirWrite, List.lookup]

/-- After removing a name, lookups at that name find nothing. -/
theorem dirGet_dirRemove_same (d : Dir) (nm : Str) :
    dirGet (dirRemove d nm) nm = none := by
  induction d with
  | nil => rfl
  | cons e t ih =>
    obtain ⟨a, b⟩ := e
    by_cases he : a = nm
    · simpa [dirRemove, dirGet, List.filter_cons, he] using ih
    · have hab : (a == nm) = false := beq_eq_false_iff_ne.mpr he
      have hba : (nm == a) = false :=
        beq_eq_false_iff_ne.mpr (fun hh => he hh.symm)
      simp only [dirRemove, dirGet] at ih ⊢
      rw [List.filter_cons]
      simp only [hab, Bool.not_false, if_true, List.lookup, hba]
      exact ih

/-- Removing an absent name changes nothing. -/
theorem dirRemove_of_absent (d : Dir) (nm : Str)
    (h : dirGet d nm = none) : dirRemove d nm = d := by
  induction d with
  | nil => rfl
  | cons e t ih =>
    obtain ⟨a, b⟩ := e
    by_cases he : a = nm
    · subst he
      simp [dirGet, List.lookup] at h
    · have hab : (a == nm) = false := beq_eq_false_iff_ne.mpr he
      have hba : (nm == a) = false :=
        beq_eq_false_iff_ne.mpr (fun hh => he hh.symm)
      simp only [dirGet, List.lookup, hba] at h ih
      simp only [dirRemove] at ih ⊢
      rw [List.filter_cons]
      simp only [hab, Bool.not_false, if_true]
      rw [ih h]

/-- If a name satisfies the deletion filter, it is absent from the
filtered directory. -/
theorem dirGet_filter_matches (doc : Str) (d : Dir) (nm : Str)
    (hm : image_matches doc nm = true) :
    dirGet (d.filter (fun e => !(image_matches doc e.1))) nm = none := by
  induction d with
  | nil => rfl
  | cons e t ih =>
    obtain ⟨a, b⟩ := e
    by_cases ha : a = nm
    · subst ha
      simp [List.filter_cons, hm, ih]
    · have hba : (nm == a) = false :=
        beq_eq_false_iff_ne.mpr (fun hh => ha hh.symm)
      by_cases hma : image_matches doc a = true
      · simp [List.filter_cons, hma, ih]
      · simp only [Bool.not_eq_true] at hma
        rw [List.filter_cons]
        simp only [hma, Bool.not_false, if_true]
        simp only [dirGet, List.lookup, hba] at ih ⊢
        exact ih

/-- Stripping a prefix of components it indeed starts with. -/
theorem stripComps_append (xs ys : List Str) :
    stripComps xs (xs ++ ys) = some ys := by
  induction xs with
  | nil => rfl
  | cons x t ih => simp [stripComps, ih]

/-- With no matching entry, the image-deletion loop removes nothing and
reports no failure. -/
theorem delete_images_loop_no_match (ora : IOOracle) (doc : Str) (d : Dir)
    (h : ∀ e ∈ d, image_matches doc e.1 = false) :
    delete_images_loop ora doc d = (none, d) := by
  induction d with
  | nil => rfl
  | cons e t ih =>
    obtain ⟨a, b⟩ := e
    have ha := h (a, b) (by simp)
    simp only [delete_images_loop, ha]
    simp only [Bool.false_eq_true, if_false]
    rw [ih (fun x hx => h x (by simp [hx]))]

/-- If the loop reports no failure, the resulting directory is exactly the
original filtered by the match predicate. -/
theorem delete_images_loop_ok (ora : IOOracle) (doc : Str) (d : Dir) :
    (delete_images_loop ora doc d).1 = none →
    (delete_images_loop ora doc d).2 =
      d.filter (fun e => !(image_matches doc e.1)) := by
  induction d with
  | nil => intro _; rfl
  | cons e t ih =>
    obtain ⟨a, b⟩ := e
    by_cases hm : image_matches doc a = true
    · by_cases hr : ora.removeOk a = true
      · intro h
        simp only [delete_images_loop, hm, hr, if_true] at h ⊢
        rw [List.filter_cons, ih h]
        simp [hm]
      · intro h
        simp only [Bool.not_eq_true] at hr
        simp [delete_images_loop, hm, hr] at h
    · intro h
      simp only [Bool.not_eq_true] at hm
      simp only [delete_images_loop, hm, Bool.false_eq_true, if_false] at h ⊢
      rw [List.filter_cons, ih h]
      simp [hm]

/-- Under an oracle where every removal succeeds, the loop never fails. -/
theorem delete_images_loop_allOk (ora : IOOracle) (doc : Str) (d : Dir)
    (hora : ∀ nm, ora.removeOk nm = true) :
    (delete_images_loop ora doc d).1 = none := by
  induction d with
  | nil => rfl
  | cons e t ih =>
    obtain ⟨a, b⟩ := e
    by_cases hm : image_matches doc a = true
    · simp [delete_images_loop, hm, hora a, ih]
    · simp only [Bool.not_eq_true] at hm
      simp [delete_images_loop, hm, ih]

/-- Failure characterisation of the image-deletion loop: the reported name
is the first matching entry whose removal fails, every earlier matching
entry was removed, and the failing entry with everything after it is left
untouched. -/
theorem delete_images_loop_failure (ora : IOOracle) (doc : Str) (d : Dir)
    (c : Str) (h : (delete_images_loop ora doc d).1 = some c) :
    ∃ pre cc post,
      d = pre ++ (c, cc) :: post ∧
      image_matches doc c = true ∧
      ora.removeOk c = false ∧
      (∀ e ∈ pre, image_matches doc e.1 = true → ora.removeOk e.1 = true) ∧
      (delete_images_loop ora doc d).2 =
        pre.filter (fun e => !(image_matches doc e.1)) ++ (c, cc) :: post := by
  induction d with
  | nil => simp [delete_images_loop] at h
  | cons e t ih =>
    obtain ⟨a, b⟩ := e
    by_cases hm : image_matches doc a = true
    · by_cases hr : ora.removeOk a = true
      · simp only [delete_images_loop, hm, hr, if_true] at h ⊢
        obtain ⟨pre, cc, post, hsplit, hmc, hrc, hpre, hres⟩ := ih h
        refine ⟨(a, b) :: pre, cc, post, by rw [hsplit]; rfl, hmc, hrc, ?_, ?_⟩
        · intro x hx hmx
          rcases List.mem_cons.mp hx with hx | hx
          · subst hx; exact hr
          · exact hpre x hx hmx
        · rw [List.filter_cons]
          simp only [hm, Bool.not_true]
          simpa using hres
      · simp only [Bool.not_eq_true] at hr
        simp only [delete_images_loop, hm, hr, if_true, Bool.false_eq_true,
          if_false] at h ⊢
        obtain rfl : a = c := by simpa using h
        exact ⟨[], b, t, rfl, hm, hr, by simp, rfl⟩
    · simp only [Bool.not_eq_true] at hm
      simp only [delete_images_loop, hm, Bool.false_eq_true, if_false] at h ⊢
      obtain ⟨pre, cc, post, hsplit, hmc, hrc, hpre, hres⟩ := ih h
      refine ⟨(a, b) :: pre, cc, post, by rw [hsplit]; rfl, hmc, hrc, ?_, ?_⟩
      · intro x hx hmx
        rcases List.mem_cons.mp hx with hx | hx
        · subst hx; simp [hm] at hmx
        · exact hpre x hx hmx
      · rw [List.filter_cons]
        simp only [hm, Bool.not_false]
        rw [hres]
        rfl

/-! ## Concrete instances used by the witnesses -/

/-- A concrete stand-in for Python's string hash. -/
def hashW : Str → Nat := fun s => s.length

/-- A service with the default base path and stripe count. -/
def svcW : StorageService := ⟨defaultBasePath, LOCK_STRIPES, hashW⟩

/-- An empty filesystem with all stripes free. -/
def stW : SState := ⟨⟨[], []⟩, fun _ => false⟩

/-- An oracle on which every write fails but removals succeed. -/
def oraWriteFail : IOOracle := ⟨fun _ => false, fun _ => true⟩

/-- Chunked contents of the two concurrent writers in the C1 witness. -/
def contentW : Bool → List Bytes := fun i => if i then [[3]] else [[1, 2]]

/-- A schedule running writer `false` to completion, then writer `true`. -/
def schedW : List Bool := [false, false, false, false, true, true, true, true]

/-- The final machine state of the C1 witness run. -/
def sFinalW : CState := ⟨none, [3], .done, .done⟩

/-! ## Claim theorems -/

/-- C1: when two `save_pdf` writers for the same `doc_id` (hence the same
stripe lock and the same file) run under any interleaving in which both
complete, the final stored file content is exactly the whole content of
one of the two writers — never a mixture — because each writer's
truncate-and-write critical section is held under the shared stripe
lock. -/
theorem save_pdf_same_id_serialized (content : Bool → List Bytes)
    (f0 : Bytes) (sched : List Bool) (s' : CState)
    (hrun : runSched content sched (initC f0) = some s')
    (h0 : s'.ph0 = Phase.done) (h1 : s'.ph1 = Phase.done) :
    s'.file = (content false).flatten ∨ s'.file = (content true).flatten := by
  have hinv :=
    saveInv_runSched content sched (initC f0) s' hrun (saveInv_init content f0)
  cases hl : s'.lock with
  | some i =>
    simp only [SaveInv, hl] at hinv
    rcases hinv.2 with habs | ⟨w, r, habs, -, -⟩ <;>
      cases i <;> simp [CState.ph, h0, h1] at habs
  | none =>
    simp only [SaveInv, hl] at hinv
    exact hinv.2 (Or.inl (by simp [CState.ph, h0]))

/-- Witness for C1: a concrete run in which writer `false` writes `[1,2]`
in one chunk and then writer `true` writes `[3]`; both finish and the
file holds one complete content. -/
theorem save_pdf_same_id_serialized_witness :
    sFinalW.file = (contentW false).flatten ∨
      sFinalW.file = (contentW true).flatten :=
  save_pdf_same_id_serialized contentW [9] schedW sFinalW (by decide) rfl rfl

/-- C2: a successful `save_pdf doc_id c` (any byte content, the empty one
included) returns a path, and reading the file at that path yields
exactly `c`. -/
theorem save_pdf_roundtrip (ora : IOOracle) (svc : StorageService)
    (doc_id : Str) (c : Bytes) (st : SState)
    (hw : ora.writeOk (pdf_filename doc_id) = true) :
    ∃ p, (save_pdf ora svc doc_id c st).1 = .ok p ∧
      read_path svc (save_pdf ora svc doc_id c st).2.fs p = some c := by
  refine ⟨svc.pdf_dir.child (pdf_filename doc_id), ?_, ?_⟩
  · simp [save_pdf, hw]
  · simp only [save_pdf, hw, if_true, read_path, StorageService.pdf_dir,
      PathV.child]
    rw [if_neg (by simp)]
    rw [show svc.base_path.comps ++ [pdfsDirName] ++ [pdf_filename doc_id] =
        svc.base_path.comps ++ [pdfsDirName, pdf_filename doc_id] by simp]
    rw [stripComps_append]
    simp [dirGet_dirWrite_same]

/-- Witness for C2 at the empty byte content. -/
theorem save_pdf_roundtrip_witness :
    ∃ p, (save_pdf allOk svcW ("doc1".toList) [] stW).1 = .ok p ∧
      read_path svcW (save_pdf allOk svcW ("doc1".toList) [] stW).2.fs p =
        some [] :=
  save_pdf_roundtrip allOk svcW ("doc1".toList) [] stW rfl

/-- C3 counterexample: with the default base path `./data` (a relative
path), a successful `save_pdf` returns the relative path
`data/pdfs/x.pdf`, not an absolute path. -/
theorem save_pdf_returns_relative_path_on_default_base :
    (save_pdf allOk svcW ("x".toList) [37] stW).1 =
      .ok ⟨false, ["data".toList, "pdfs".toList, "x.pdf".toList]⟩ ∧
    PathV.is_absolute
      ⟨false, ["data".toList, "pdfs".toList, "x.pdf".toList]⟩ = false := by
  constructor
  · rfl
  · rfl

/-- C3 (amended): a successful `save_pdf` returns the path
`{base}/pdfs/{doc_id}.pdf` of the file it wrote (and `save_image` the path
`{base}/images/{doc_id}_p{page}.jpg`); that path is absolute exactly when
the configured base path is absolute — with the default relative base
`./data` it is relative. -/
theorem save_returns_written_path (ora : IOOracle) (svc : StorageService)
    (doc : Str) (page : Nat) (c : Bytes) (st : SState)
    (hw1 : ora.writeOk (pdf_filename doc) = true)
    (hw2 : ora.writeOk (image_filename doc page) = true) :
    (save_pdf ora svc doc c st).1 =
      .ok (svc.pdf_dir.child (pdf_filename doc)) ∧
    (svc.pdf_dir.child (pdf_filename doc)).is_absolute =
      svc.base_path.is_absolute ∧
    (save_image ora svc doc page c st).1 =
      .ok (svc.image_dir.child (image_filename doc page)) ∧
    (svc.image_dir.child (image_filename doc page)).is_absolute =
      svc.base_path.is_absolute := by
  exact ⟨by simp [save_pdf, hw1], rfl, by simp [save_image, hw2], rfl⟩

/-- Witness for the amended C3. -/
theorem save_returns_written_path_witness :
    (save_pdf allOk svcW ("x".toList) [37] stW).1 =
      .ok (svcW.pdf_dir.child (pdf_filename ("x".toList))) ∧
    (svcW.pdf_dir.child (pdf_filename ("x".toList))).is_absolute =
      svcW.base_path.is_absolute ∧
    (save_image allOk svcW ("x".toList) 0 [37] stW).1 =
      .ok (svcW.image_dir.child (image_filename ("x".toList) 0)) ∧
    (svcW.image_dir.child (image_filename ("x".toList) 0)).is_absolute =
      svcW.base_path.is_absolute :=
  save_returns_written_path allOk svcW ("x".toList) 0 [37] stW rfl rfl

/-- C9: `_get_lock` maps `doc_id` to index `hash(doc_id) mod N` into the
fixed stripe table (so with `0 < N` the index always falls inside the
table and equal hashes give the very same lock slot, making repeated
calls with one `doc_id` return the same lock object), and two distinct
ids can collide onto the same lock. -/
theorem get_lock_striping (svc : StorageService) (d d' : Str)
    (hN : 0 < svc.num_stripes) :
    svc.get_lock_idx d = svc.hashFn d % svc.num_stripes ∧
    svc.get_lock_idx d < svc.num_stripes ∧
    (svc.hashFn d = svc.hashFn d' →
      svc.get_lock_idx d = svc.get_lock_idx d') ∧
    ∃ (h2 : Str → Nat) (d1 d2 : Str), d1 ≠ d2 ∧
      StorageService.get_lock_idx ⟨svc.base_path, svc.num_stripes, h2⟩ d1 =
        StorageService.get_lock_idx ⟨svc.base_path, svc.num_stripes, h2⟩ d2 := by
  refine ⟨rfl, Nat.mod_lt _ hN,
    fun h => by simp [StorageService.get_lock_idx, h], ?_⟩
  exact ⟨fun _ => 0, "a".toList, "b".toList, by decide, rfl⟩

/-- Witness for C9 at the default stripe count 1024. -/
theorem get_lock_striping_witness :
    svcW.get_lock_idx ("x".toList) = hashW ("x".toList) % 1024 ∧
    svcW.get_lock_idx ("x".toList) < 1024 ∧
    (hashW ("x".toList) = hashW ("y".toList) →
      svcW.get_lock_idx ("x".toList) = svcW.get_lock_idx ("y".toList)) ∧
    ∃ (h2 : Str → Nat) (d1 d2 : Str), d1 ≠ d2 ∧
      StorageService.get_lock_idx ⟨svcW.base_path, svcW.num_stripes, h2⟩ d1 =
        StorageService.get_lock_idx ⟨svcW.base_path, svcW.num_stripes, h2⟩ d2 :=
  get_lock_striping svcW ("x".toList) ("y".toList) (by decide)

/-- C4: `get_pdf_path` fails exactly when no PDF file exists for the id,
with the dedicated `PDFNotFoundError` kind (the only error it ever
raises, so never conflated with an I/O failure), and returns the file's
path otherwise; an id that was never saved fails, and an id fails again
after `save_pdf` followed by `delete_document`.  Symmetrically
`get_image_path` fails only with `ImageNotFoundError`. -/
theorem get_path_not_found_semantics (svc : StorageService) (doc : Str)
    (page : Nat) (fs : FS) (imgs : Dir) :
    (get_pdf_path svc doc fs = .error (.pdfNotFound doc) ↔
      dirGet fs.pdfs (pdf_filename doc) = none) ∧
    ((dirGet fs.pdfs (pdf_filename doc)).isSome = true →
      get_pdf_path svc doc fs = .ok (svc.pdf_dir.child (pdf_filename doc))) ∧
    (∀ e, get_pdf_path svc doc fs = .error e → e = .pdfNotFound doc) ∧
    (get_pdf_path svc doc ⟨[], imgs⟩ = .error (.pdfNotFound doc)) ∧
    (∀ ora c st, ora.writeOk (pdf_filename doc) = true →
      ora.removeOk (pdf_filename doc) = true →
      get_pdf_path svc doc
        ((delete_document ora svc doc
          ((save_pdf ora svc doc c st).2)).2).fs =
        .error (.pdfNotFound doc)) ∧
    (get_image_path svc doc page fs = .error (.imageNotFound doc page) ↔
      dirGet fs.images (image_filename doc page) = none) ∧
    (∀ e, get_image_path svc doc page fs = .error e →
      e = .imageNotFound doc page) := by
  refine ⟨?_, ?_, ?_, ?_, ?_, ?_, ?_⟩
  · cases h : dirGet fs.pdfs (pdf_filename doc) with
    | some c => simp [get_pdf_path, h]
    | none => simp [get_pdf_path, h]
  · intro h
    simp [get_pdf_path, h]
  · intro e he
    cases h : dirGet fs.pdfs (pdf_filename doc) with
    | some c => simp [get_pdf_path, h] at he
    | none =>
      simp only [get_pdf_path, h, Option.isSome_none, Bool.false_eq_true,
        if_false, Except.error.injEq] at he
      exact he.symm
  · simp [get_pdf_path, dirGet, List.lookup]
  · intro ora c st hw hr
    have hsave : ((save_pdf ora svc doc c st).2).fs.pdfs =
        dirWrite st.fs.pdfs (pdf_filename doc) c := by
      simp [save_pdf, hw]
    have hpdfget : dirGet ((save_pdf ora svc doc c st).2).fs.pdfs
        (pdf_filename doc) = some c := by
      rw [hsave]; exact dirGet_dirWrite_same _ _ _
    have hpdfs : ((delete_document ora svc doc
        ((save_pdf ora svc doc c st).2)).2).fs.pdfs =
        dirRemove ((save_pdf ora svc doc c st).2).fs.pdfs
          (pdf_filename doc) := by
      simp only [delete_document, hpdfget, Option.isSome_some, if_true, hr]
      cases hloop : (delete_images_loop ora doc
          ((save_pdf ora svc doc c st).2).fs.images).1 <;>
        simp [hloop]
    simp only [get_pdf_path, hpdfs, dirGet_dirRemove_same,
      Option.isSome_none, Bool.false_eq_true, if_false]
  · cases h : dirGet fs.images (image_filename doc page) with
    | some c => simp [get_image_path, h]
    | none => simp [get_image_path, h]
  · intro e he
    cases h : dirGet fs.images (image_filename doc page) with
    | some c => simp [get_image_path, h] at he
    | none =>
      simp only [get_image_path, h, Option.isSome_none, Bool.false_eq_true,
        if_false, Except.error.injEq] at he
      exact he.symm

/-- Witness for C4: a never-saved id is not found, and an id is not found
again after save followed by delete. -/
theorem get_path_not_found_semantics_witness :
    get_pdf_path svcW ("never_saved".toList) ⟨[], []⟩ =
      .error (.pdfNotFound ("never_saved".toList)) ∧
    get_pdf_path svcW ("x".toList)
      ((delete_document allOk svcW ("x".toList)
        ((save_pdf allOk svcW ("x".toList) [1, 2] stW).2)).2).fs =
      .error (.pdfNotFound ("x".toList)) :=
  ⟨(get_path_not_found_semantics svcW ("never_saved".toList) 0
      ⟨[], []⟩ []).2.2.2.1,
   (get_path_not_found_semantics svcW ("x".toList) 0
      ⟨[], []⟩ []).2.2.2.2.1 allOk [1, 2] stW rfl rfl⟩

/-- C5: `delete_document` on an id with no stored PDF and no matching
image files succeeds, leaves the filesystem unchanged, and a second call
in a row succeeds as well — the nothing-to-delete case is success, not an
error. -/
theorem delete_document_idempotent (ora : IOOracle) (svc : StorageService)
    (doc : Str) (st : SState)
    (hpdf : dirGet st.fs.pdfs (pdf_filename doc) = none)
    (himg : ∀ e ∈ st.fs.images, image_matches doc e.1 = false) :
    (delete_document ora svc doc st).1 = .ok () ∧
    (delete_document ora svc doc st).2.fs = st.fs ∧
    (delete_document ora svc doc ((delete_document ora svc doc st).2)).1 =
      .ok () := by
  have key : ∀ st2 : SState, st2.fs = st.fs →
      (delete_document ora svc doc st2).1 = .ok () ∧
      (delete_document ora svc doc st2).2.fs = st2.fs := by
    intro st2 hfs
    have hp : dirGet st2.fs.pdfs (pdf_filename doc) = none := by
      rw [hfs]; exact hpdf
    have hl := delete_images_loop_no_match ora doc st2.fs.images
      (by rw [hfs]; exact himg)
    constructor <;> simp [delete_document, hp, hl]
  refine ⟨(key st rfl).1, (key st rfl).2, (key _ (key st rfl).2).1⟩

/-- Witness for C5 on an empty store. -/
theorem delete_document_idempotent_witness :
    (delete_document allOk svcW ("ghost".toList) stW).1 = .ok () ∧
    (delete_document allOk svcW ("ghost".toList) stW).2.fs = stW.fs ∧
    (delete_document allOk svcW ("ghost".toList)
      ((delete_document allOk svcW ("ghost".toList) stW).2)).1 = .ok () :=
  delete_document_idempotent allOk svcW ("ghost".toList) stW rfl
    (by intro e he; simp [stW] at he)

/-- Effect of a successful `delete_document` on the filesystem: the PDF
entry removed, the matching image entries filtered out. -/
theorem delete_document_ok_fs (ora : IOOracle) (svc : StorageService)
    (doc : Str) (st : SState)
    (hok : (delete_document ora svc doc st).1 = .ok ()) :
    (delete_document ora svc doc st).2.fs =
      ⟨dirRemove st.fs.pdfs (pdf_filename doc),
       st.fs.images.filter (fun e => !(image_matches doc e.1))⟩ := by
  by_cases hpdfS : (dirGet st.fs.pdfs (pdf_filename doc)).isSome = true
  · by_cases hrm : ora.removeOk (pdf_filename doc) = true
    · cases hloop : (delete_images_loop ora doc st.fs.images).1 with
      | some c => simp [delete_document, hpdfS, hrm, hloop] at hok
      | none =>
        have hr2 := delete_images_loop_ok ora doc st.fs.images hloop
        simp [delete_document, hpdfS, hrm, hloop, hr2]
    · simp only [Bool.not_eq_true] at hrm
      simp [delete_document, hpdfS, hrm] at hok
  · have hpdfN : dirGet st.fs.pdfs (pdf_filename doc) = none := by
      cases h : dirGet st.fs.pdfs (pdf_filename doc) with
      | none => rfl
      | some c => rw [h] at hpdfS; simp at hpdfS
    cases hloop : (delete_images_loop ora doc st.fs.images).1 with
    | some c => simp [delete_document, hpdfS, hloop] at hok
    | none =>
      have hr2 := delete_images_loop_ok ora doc st.fs.images hloop
      rw [dirRemove_of_absent st.fs.pdfs (pdf_filename doc) hpdfN] at *
      simp [delete_document, hpdfS, hloop, hr2]

/-- C6: a successful `delete_document` leaves the PDF directory equal to
the original with the entry `{doc_id}.pdf` removed (a no-op when it was
absent) and the image directory equal to the original with exactly the
entries whose names start with `{doc_id}_p` and end with `.jpg` removed;
every other file in both directories is unchanged. -/
theorem delete_document_effect (ora : IOOracle) (svc : StorageService)
    (doc : Str) (st : SState)
    (hok : (delete_document ora svc doc st).1 = .ok ()) :
    (delete_document ora svc doc st).2.fs =
      ⟨dirRemove st.fs.pdfs (pdf_filename doc),
       st.fs.images.filter (fun e => !(image_matches doc e.1))⟩ :=
  delete_document_ok_fs ora svc doc st hok

/-- A filesystem state for the C6 witness: the document's PDF, one
matching image, plus unrelated files in both directories. -/
def stC6 : SState :=
  ⟨⟨[("doc.pdf".toList, [1]), ("other.pdf".toList, [2])],
    [("doc_p0.jpg".toList, [3]), ("x_p0.jpg".toList, [4]),
     ("doc_p1.txt".toList, [5])]⟩,
   fun _ => false⟩

/-- Witness for C6: the PDF and the matching image are removed; the
unrelated PDF, the other document's image and the non-`.jpg` file
remain. -/
theorem delete_document_effect_witness :
    (delete_document allOk svcW ("doc".toList) stC6).2.fs =
      ⟨dirRemove stC6.fs.pdfs (pdf_filename ("doc".toList)),
       stC6.fs.images.filter
         (fun e => !(image_matches ("doc".toList) e.1))⟩ :=
  delete_document_effect allOk svcW ("doc".toList) stC6 (by decide)

/-- C7: when `delete_document` fails it fails with the
`DeleteDocumentError` kind wrapping the first failing removal — either
the PDF removal (with nothing yet deleted) or the first matching image
whose removal fails, every earlier matching image having been removed —
and the state keeps all removals made before the failure: nothing is
rolled back. -/
theorem delete_document_failure (ora : IOOracle) (svc : StorageService)
    (doc : Str) (st : SState) (e : StorageErr)
    (herr : (delete_document ora svc doc st).1 = .error e) :
    ∃ cause, e = .deleteDocumentFailed doc cause ∧
      ((cause = pdf_filename doc ∧
        (dirGet st.fs.pdfs (pdf_filename doc)).isSome = true ∧
        ora.removeOk (pdf_filename doc) = false ∧
        (delete_document ora svc doc st).2.fs = st.fs) ∨
       (∃ pre cc post,
         st.fs.images = pre ++ (cause, cc) :: post ∧
         image_matches doc cause = true ∧
         ora.removeOk cause = false ∧
         (∀ x ∈ pre, image_matches doc x.1 = true →
           ora.removeOk x.1 = true) ∧
         (delete_document ora svc doc st).2.fs =
           ⟨dirRemove st.fs.pdfs (pdf_filename doc),
            pre.filter (fun x => !(image_matches doc x.1)) ++
              (cause, cc) :: post⟩)) := by
  by_cases hpdfS : (dirGet st.fs.pdfs (pdf_filename doc)).isSome = true
  · by_cases hrm : ora.removeOk (pdf_filename doc) = true
    · cases hloop : (delete_images_loop ora doc st.fs.images).1 with
      | none => simp [delete_document, hpdfS, hrm, hloop] at herr
      | some c =>
        obtain ⟨pre, cc, post, hsplit, hmc, hrc, hpre, hres⟩ :=
          delete_images_loop_failure ora doc st.fs.images c hloop
        have hec : e = .deleteDocumentFailed doc c := by
          simp only [delete_document, hpdfS, if_true, hrm, hloop,
            Except.error.injEq] at herr
          exact herr.symm
        refine ⟨c, hec, Or.inr ⟨pre, cc, post, hsplit, hmc, hrc, hpre, ?_⟩⟩
        simp [delete_document, hpdfS, hrm, hloop, hres]
    · simp only [Bool.not_eq_true] at hrm
      have hec : e = .deleteDocumentFailed doc (pdf_filename doc) := by
        simp only [delete_document, hpdfS, if_true, hrm,
          Bool.false_eq_true, if_false, Except.error.injEq] at herr
        exact herr.symm
      refine ⟨pdf_filename doc, hec,
        Or.inl ⟨rfl, hpdfS, hrm, ?_⟩⟩
      simp [delete_document, hpdfS, hrm]
  · have hpdfN : dirGet st.fs.pdfs (pdf_filename doc) = none := by
      cases h : dirGet st.fs.pdfs (pdf_filename doc) with
      | none => rfl
      | some c => rw [h] at hpdfS; simp at hpdfS
    cases hloop : (delete_images_loop ora doc st.fs.images).1 with
    | none => simp [delete_document, hpdfS, hloop] at herr
    | some c =>
      obtain ⟨pre, cc, post, hsplit, hmc, hrc, hpre, hres⟩ :=
        delete_images_loop_failure ora doc st.fs.images c hloop
      have hec : e = .deleteDocumentFailed doc c := by
        simp only [delete_document, hpdfS, Bool.false_eq_true, if_false,
          hloop, Except.error.injEq] at herr
        exact herr.symm
      refine ⟨c, hec, Or.inr ⟨pre, cc, post, hsplit, hmc, hrc, hpre, ?_⟩⟩
      rw [dirRemove_of_absent st.fs.pdfs (pdf_filename doc) hpdfN]
      simp [delete_document, hpdfS, hloop, hres]

/-- Oracle for the C7 witness: every removal succeeds except
`doc_p1.jpg`. -/
def oraC7 : IOOracle :=
  ⟨fun _ => true, fun nm => !(nm == "doc_p1.jpg".toList)⟩

/-- Filesystem for the C7 witness: the document's PDF and three of its
images. -/
def stC7 : SState :=
  ⟨⟨[("doc.pdf".toList, [1])],
    [("doc_p0.jpg".toList, [3]), ("doc_p1.jpg".toList, [4]),
     ("doc_p2.jpg".toList, [5])]⟩,
   fun _ => false⟩

/-- Witness for C7: removing `doc_p1.jpg` fails, the error wraps it, and
the already-removed PDF and `doc_p0.jpg` stay removed. -/
theorem delete_document_failure_witness :
    ∃ cause,
      (StorageErr.deleteDocumentFailed ("doc".toList)
        ("doc_p1.jpg".toList) : StorageErr) =
        .deleteDocumentFailed ("doc".toList) cause ∧
      ((cause = pdf_filename ("doc".toList) ∧
        (dirGet stC7.fs.pdfs (pdf_filename ("doc".toList))).isSome = true ∧
        oraC7.removeOk (pdf_filename ("doc".toList)) = false ∧
        (delete_document oraC7 svcW ("doc".toList) stC7).2.fs = stC7.fs) ∨
       (∃ pre cc post,
         stC7.fs.images = pre ++ (cause, cc) :: post ∧
         image_matches ("doc".toList) cause = true ∧
         oraC7.removeOk cause = false ∧
         (∀ x ∈ pre, image_matches ("doc".toList) x.1 = true →
           oraC7.removeOk x.1 = true) ∧
         (delete_document oraC7 svcW ("doc".toList) stC7).2.fs =
           ⟨dirRemove stC7.fs.pdfs (pdf_filename ("doc".toList)),
            pre.filter (fun x => !(image_matches ("doc".toList) x.1)) ++
              (cause, cc) :: post⟩)) :=
  delete_document_failure oraC7 svcW ("doc".toList) stC7
    (.deleteDocumentFailed ("doc".toList) ("doc_p1.jpg".toList))
    (by decide)

/-- C8: if the file write inside `save_pdf` fails, `save_pdf` raises
`SavePDFError` wrapping the failing write (and `save_image` raises
`SaveImageError`), and on every exit path — failure included — the
stripe lock is released. -/
theorem save_failure_wrapped_lock_released (ora : IOOracle)
    (svc : StorageService) (doc : Str) (page : Nat) (c : Bytes)
    (st : SState) :
    (ora.writeOk (pdf_filename doc) = false →
      (save_pdf ora svc doc c st).1 =
        .error (.savePdfFailed doc (pdf_filename doc))) ∧
    (save_pdf ora svc doc c st).2.locks (svc.get_lock_idx doc) = false ∧
    (ora.writeOk (image_filename doc page) = false →
      (save_image ora svc doc page c st).1 =
        .error (.saveImageFailed doc page (image_filename doc page))) ∧
    (save_image ora svc doc page c st).2.locks (svc.get_lock_idx doc) =
      false := by
  refine ⟨fun hw => by simp [save_pdf, hw], ?_,
    fun hw => by simp [save_image, hw], ?_⟩
  · by_cases hw : ora.writeOk (pdf_filename doc) = true
    · simp [save_pdf, hw, setLock]
    · simp only [Bool.not_eq_true] at hw
      simp [save_pdf, hw, setLock]
  · by_cases hw : ora.writeOk (image_filename doc page) = true
    · simp [save_image, hw, setLock]
    · simp only [Bool.not_eq_true] at hw
      simp [save_image, hw, setLock]

/-- Witness for C8 under an oracle whose writes all fail. -/
theorem save_failure_wrapped_lock_released_witness :
    (save_pdf oraWriteFail svcW ("x".toList) [1] stW).1 =
      .error (.savePdfFailed ("x".toList) (pdf_filename ("x".toList))) ∧
    (save_pdf oraWriteFail svcW ("x".toList) [1] stW).2.locks
      (svcW.get_lock_idx ("x".toList)) = false :=
  ⟨(save_failure_wrapped_lock_released oraWriteFail svcW ("x".toList) 0 [1]
      stW).1 rfl,
   (save_failure_wrapped_lock_released oraWriteFail svcW ("x".toList) 0 [1]
      stW).2.1⟩

/-- The image file name of any document id of the shape
`{d1}_p{rest}` matches `delete_document d1`'s deletion filter. -/
theorem image_matches_of_extended (d1 rest : Str) (page : Nat) :
    image_matches d1 (image_filename (d1 ++ "_p".toList ++ rest) page) =
      true := by
  rw [image_matches, Bool.and_eq_true]
  constructor
  · rw [ List.isPrefixOf_iff_prefix]
    have h : image_filename (d1 ++ "_p".toList ++ rest) page =
        (d1 ++ "_p".toList) ++
          (rest ++ ("_p".toList ++
            (Nat.toDigits 10 page ++ ".jpg".toList))) := by
      simp [image_filename, List.append_assoc]
    rw [h]
    exact List.prefix_append _ _
  · rw [List.isSuffixOf_iff_suffix]
    have h : image_filename (d1 ++ "_p".toList ++ rest) page =
        ((d1 ++ "_p".toList ++ rest) ++ "_p".toList ++
          Nat.toDigits 10 page) ++ ".jpg".toList := by
      simp [image_filename, List.append_assoc]
    rw [h]
    exact List.suffix_append _ _

/-- C10: for a document id `d2 = d1 ++ "_p" ++ rest` (`rest` non-empty),
saving an image for `d2` and then deleting document `d1` also removes
`d2`'s image file — the image cleanup keys on filename prefix matching,
not exact document identity — so `get_image_path` for `d2` then fails
with `ImageNotFoundError`. -/
theorem delete_document_prefix_collateral (ora : IOOracle)
    (svc : StorageService) (d1 rest : Str) (page : Nat) (c : Bytes)
    (st : SState) (d2 : Str)
    (hd2 : d2 = d1 ++ "_p".toList ++ rest)
    (hrest : rest ≠ [])
    (hw : ora.writeOk (image_filename d2 page) = true)
    (hrm : ∀ nm, ora.removeOk nm = true) :
    (save_image ora svc d2 page c st).1 =
      .ok (svc.image_dir.child (image_filename d2 page)) ∧
    (delete_document ora svc d1
      ((save_image ora svc d2 page c st).2)).1 = .ok () ∧
    get_image_path svc d2 page
      ((delete_document ora svc d1
        ((save_image ora svc d2 page c st).2)).2).fs =
      .error (.imageNotFound d2 page) := by
  have hmatch : image_matches d1 (image_filename d2 page) = true := by
    rw [hd2]; exact image_matches_of_extended d1 rest page
  have hsave1 : (save_image ora svc d2 page c st).1 =
      .ok (svc.image_dir.child (image_filename d2 page)) := by
    simp [save_image, hw]
  have hloopN := delete_images_loop_allOk ora d1
    ((save_image ora svc d2 page c st).2).fs.images hrm
  have hok : (delete_document ora svc d1
      ((save_image ora svc d2 page c st).2)).1 = .ok () := by
    by_cases hpdfS : (dirGet ((save_image ora svc d2 page c st).2).fs.pdfs
        (pdf_filename d1)).isSome = true
    · simp [delete_document, hpdfS, hrm (pdf_filename d1), hloopN]
    · simp [delete_document, hpdfS, hloopN]
  have heffect := delete_document_ok_fs ora svc d1
    ((save_image ora svc d2 page c st).2) hok
  have hnone : dirGet ((delete_document ora svc d1
      ((save_image ora svc d2 page c st).2)).2).fs.images
      (image_filename d2 page) = none := by
    rw [heffect]
    exact dirGet_filter_matches d1 _ _ hmatch
  exact ⟨hsave1, hok, by simp [get_image_path, hnone]⟩

/-- Witness for C10: `d1 = "doc"`, `d2 = "doc_p1x"`; deleting `doc`
destroys `doc_p1x`'s page 0. -/
theorem delete_document_prefix_collateral_witness :
    (save_image allOk svcW ("doc_p1x".toList) 0 [5] stW).1 =
      .ok (svcW.image_dir.child (image_filename ("doc_p1x".toList) 0)) ∧
    (delete_document allOk svcW ("doc".toList)
      ((save_image allOk svcW ("doc_p1x".toList) 0 [5] stW).2)).1 =
      .ok () ∧
    get_image_path svcW ("doc_p1x".toList) 0
      ((delete_document allOk svcW ("doc".toList)
        ((save_image allOk svcW ("doc_p1x".toList) 0 [5] stW).2)).2).fs =
      .error (.imageNotFound ("doc_p1x".toList) 0) :=
  delete_document_prefix_collateral allOk svcW ("doc".toList)
    ("1x".toList) 0 [5] stW ("doc_p1x".toList) (by decide) (by decide)
    rfl (fun _ => rfl)

end DocAI
